import Mathlib

/-!
# blobserver: reference model, sharder, fetch adapter and dedup-upload client

A shallow embedding of the Go sources `blob/ref.go`, `swift/shard.go`,
`swift/fetch.go` and `client/client.go`, followed by the properties proved
about them.

Go strings and byte slices are modelled as lists of bytes.  A Go function
returning `(value, error)` becomes a function returning a pair whose second
component is an `Option` (`none` is the nil error), because callers in this
code base read the value even when the error is set.  A run-time panic is
modelled by `Option.none` on the whole result.  Pointers into a slice of
records become indices into a list.
-/

namespace Blobserver

/-- Contents of a Go `string` or `[]byte`. -/
abbrev Bytes := List UInt8

/-- Bytes of an ASCII string literal. -/
def ascii (s : String) : Bytes := s.toList.map (fun c => UInt8.ofNat c.toNat)

/-! ## Go standard library: `strconv`, `path/filepath`, `encoding/hex`, `fmt` -/

namespace strconv

/-- The two sentinel causes carried by a `*strconv.NumError`. -/
inductive NumError where
  | ErrSyntaxKind
  | ErrRangeKind
deriving DecidableEq, Repr

/-- Digit value of one byte in `ParseUint`: `0-9`, `a-z`, `A-Z`; `none` is the
`default` branch of the switch. -/
def digitVal (c : UInt8) : Option Nat :=
  if 48 ≤ c ∧ c ≤ 57 then some (c.toNat - 48)
  else if 97 ≤ c ∧ c ≤ 122 then some (c.toNat - 97 + 10)
  else if 65 ≤ c ∧ c ≤ 90 then some (c.toNat - 65 + 10)
  else none

/-- Loop of `ParseUint` over the remaining bytes with accumulator `n`
(a `uint64`). `cutoff` is the least number with `cutoff * base > 2^64 - 1`. -/
def parseUintLoop (base maxVal cutoff : Nat) : Bytes → Nat → Nat × Option NumError
  | [], n => (n, none)
  | c :: cs, n =>
    match digitVal c with
    | none => (0, some .ErrSyntaxKind)
    | some d =>
      if d ≥ base then (0, some .ErrSyntaxKind)
      else if n ≥ cutoff then (maxVal, some .ErrRangeKind)
      else
        let nb := n * base
        let n1 := (nb + d) % 2 ^ 64
        if n1 < nb ∨ n1 > maxVal then (maxVal, some .ErrRangeKind)
        else parseUintLoop base maxVal cutoff cs n1

/-- Go `strconv.ParseUint(s, base, bitSize)` for an explicit base in `2..36`
and a bit size in `1..64` (the only way this code base calls it). -/
def ParseUint (s : Bytes) (base bitSize : Nat) : Nat × Option NumError :=
  if s = [] then (0, some .ErrSyntaxKind)
  else parseUintLoop base (2 ^ bitSize - 1) ((2 ^ 64 - 1) / base + 1) s 0

/-- Go `strconv.ParseInt(s, base, bitSize)`, same restrictions. -/
def ParseInt (s : Bytes) (base bitSize : Nat) : Int × Option NumError :=
  match s with
  | [] => (0, some .ErrSyntaxKind)
  | c :: rest =>
    let neg : Bool := c == 45
    let s1 : Bytes := if c = 43 ∨ c = 45 then rest else s
    let (un, err) := ParseUint s1 base bitSize
    if err = some .ErrSyntaxKind then (0, err)
    else
      let cutoff : Nat := 2 ^ (bitSize - 1)
      if !neg ∧ un ≥ cutoff then ((cutoff : Int) - 1, some .ErrRangeKind)
      else if neg ∧ un > cutoff then (-(cutoff : Int), some .ErrRangeKind)
      else
        let n : Int := Int.ofNat un
        (if neg then -n else n, none)

/-- Value of one decimal digit byte, `none` for any other byte. -/
def decimalDigit (c : UInt8) : Option Nat :=
  if 48 ≤ c ∧ c ≤ 57 then some (c.toNat - 48) else none

/-- Unbounded value of the decimal digits `s` read after the value `n`;
`none` when some byte is not a decimal digit. -/
def decimalFrom : Bytes → Nat → Option Nat
  | [], n => some n
  | c :: cs, n =>
    match decimalDigit c with
    | none => none
    | some d => decimalFrom cs (n * 10 + d)

/-- Unbounded value of a non-empty string of decimal digits. -/
def decimalNat (s : Bytes) : Option Nat :=
  if s = [] then none else decimalFrom s 0

/-- The integer written by `s` in decimal notation: an optional sign followed
by at least one digit. This is the reference meaning of "a decimal integer",
stated without the overflow bookkeeping of `ParseInt`. -/
def decimalInt : Bytes → Option Int
  | [] => none
  | c :: rest =>
    if c = 45 then (decimalNat rest).map (fun (n : Nat) => -(n : Int))
    else if c = 43 then (decimalNat rest).map (fun (n : Nat) => (n : Int))
    else (decimalNat (c :: rest)).map (fun (n : Nat) => (n : Int))

/-- The bytes `s` are the decimal notation of a 64-bit signed integer. -/
def isDecimalInt64 (s : Bytes) : Prop :=
  ∃ n, decimalInt s = some n ∧ -(2 : Int) ^ 63 ≤ n ∧ n < (2 : Int) ^ 63

end strconv

namespace filepath

/-- Loop of Go `filepath.Ext`: `i + 1` is one past the index inspected next;
the scan runs from the last byte towards the first and stops at a `/`. -/
def extLoop (path : Bytes) : Nat → Bytes
  | 0 => []
  | i + 1 =>
    match path[i]? with
    | none => []
    | some c =>
      if c = 47 then []
      else if c = 46 then path.drop i
      else extLoop path i

/-- Go `filepath.Ext` (Unix separator): the suffix beginning at the final dot
of the last path element, the dot included; empty when there is no dot. -/
def Ext (path : Bytes) : Bytes := extLoop path path.length

end filepath

namespace hex

/-- Go `encoding/hex` digit table `"0123456789abcdef"`. -/
def hextable (d : Nat) : UInt8 :=
  if d < 10 then UInt8.ofNat (48 + d) else UInt8.ofNat (87 + d)

/-- Go `hex.EncodeToString`: two lower-case digits per byte, high nibble first. -/
def EncodeToString (src : Bytes) : Bytes :=
  src.flatMap (fun b => [hextable (b.toNat / 16), hextable (b.toNat % 16)])

/-- Go `encoding/hex` `fromHexChar`: the value of one hexadecimal digit. -/
def fromHexChar (c : UInt8) : Option Nat :=
  if 48 ≤ c ∧ c ≤ 57 then some (c.toNat - 48)
  else if 97 ≤ c ∧ c ≤ 102 then some (c.toNat - 97 + 10)
  else if 65 ≤ c ∧ c ≤ 70 then some (c.toNat - 65 + 10)
  else none

end hex

namespace fmt

/-- Digit loop of `fmt.fmtInteger` in base 16, written right to left into the
buffer `acc`: `for u >= 16 { buf[i] = digits[u&0xF]; u >>= 4 }; buf[i] = digits[u]`.
A 64-bit value has at most 16 digits, hence the fuel. -/
def hexDigitsLoop : Nat → Nat → Bytes → Bytes
  | 0, _, acc => acc
  | fuel + 1, u, acc =>
    if u ≥ 16 then hexDigitsLoop fuel (u / 16) (hex.hextable (u % 16) :: acc)
    else hex.hextable u :: acc

/-- Zero padding loop of `fmt.fmtInteger`: `for prec > len(buf)-i { buf[i] = 0 }`. -/
def padZeros (prec : Nat) (digits : Bytes) : Bytes :=
  List.replicate (prec - digits.length) 48 ++ digits

/-- Go `fmt.Sprintf("%0.2x", i)` for a non-negative `int`: precision 2 asks
for at least two digits, lower-case hexadecimal. -/
def Sprintf_02x (i : Nat) : Bytes := padZeros 2 (hexDigitsLoop 16 i [])

end fmt

/-! ## `blob/ref.go` -/

namespace blob

/-- Go `type Ref struct { Id string }`. -/
structure Ref where
  Id : Bytes
deriving DecidableEq, Repr

/-- The error built by `fmt.Errorf("blob: expecting a JSON string to
unmarshal, got %q", d)`: it carries the payload it names. -/
inductive Error where
  | expectingJSONString (d : Bytes)
deriving DecidableEq, Repr

/-- Default extension literal `"bin"`. -/
def bin : Bytes := ascii "bin"

/-- Go `NewRef(name)`. The freshly generated token `id.String()` of
`uuid.NewV4()` is the parameter `id`. -/
def NewRef (id : Bytes) (name : Bytes) : Ref :=
  let ext := filepath.Ext name
  let ext := if ext = [] then bin else ext
  let buf : Bytes := []
  let buf := buf ++ id
  let buf := buf ++ [46]
  let buf := buf ++ ext
  { Id := buf }

/-- Go `Ref.String`. -/
def Ref.String (r : Ref) : Bytes := r.Id

/-- Go `var null = []byte("null")`. -/
def null : Bytes := ascii "null"

/-- Go `(*Ref).UnmarshalJSON(d)`: the receiver after the call and the error. -/
def UnmarshalJSON (r : Ref) (d : Bytes) : Ref × Option Error :=
  if d.length = 0 ∨ d = null then (r, none)
  else if d.length < 2 ∨ d[0]? ≠ some 34 ∨ d[d.length - 1]? ≠ some 34 then
    (r, some (.expectingJSONString d))
  else
    let d := (d.take (d.length - 1)).drop 1
    ({ r with Id := d }, none)

/-- Go `Ref.MarshalJSON`. -/
def MarshalJSON (r : Ref) : Bytes × Option Error :=
  let buf : Bytes := []
  let buf := buf ++ [34]
  let buf := buf ++ r.String
  let buf := buf ++ [34]
  (buf, none)

end blob

/-! ## `swift/shard.go` -/

namespace swift

/-- Go `const shardCount = 8 << 7`. -/
def shardCount : Nat := 8 <<< 7

/-- Go `type sharder [shardCount]string`. -/
abbrev sharder := List Bytes

/-- Go `sharder.sum32`: `digest[:4]` panics on a digest shorter than four
bytes (`none`); the error of `ParseUint` is discarded with `_` and only the
value is converted to `uint32`. -/
def sum32 (digest : Bytes) : Option Nat :=
  if digest.length < 4 then none
  else
    let vv := (strconv.ParseUint (digest.take 4) 16 32).1
    some (vv % 2 ^ 32)

/-- Go `sharder.num`. -/
def num (digest : Bytes) : Option Nat :=
  (sum32 digest).map (fun v => v % (shardCount % 2 ^ 32))

/-- Go `sharder.shard`; the digest function `md5.Sum` is the parameter `md5sum`. -/
def shard (md5sum : Bytes → Bytes) (s : sharder) (v : Bytes) : Option Bytes :=
  let src := md5sum v
  let str := hex.EncodeToString src
  (num str).bind (fun i => s[i]?)

/-- Go `newSharder`: `for i := range s { s[i] = fmt.Sprintf("%0.2x", i) }`. -/
def newSharder : sharder :=
  (List.range shardCount).map fmt.Sprintf_02x

/-- The four lower-case hexadecimal digits with which a digest begins when
its first two bytes are `v / 256` and `v % 256`: the 65536 values of `v`
enumerate the possible four-digit beginnings. -/
def fourDigits (v : Nat) : Bytes :=
  hex.EncodeToString [UInt8.ofNat (v / 256), UInt8.ofNat (v % 256)]

/-- Lower-case hexadecimal numeral of `i`, padded on the left with zeros to
at least two digits (the wording of the specification, independent of `fmt`). -/
def hexNumeral2 (i : Nat) : Bytes :=
  let ds : Bytes := (Nat.toDigits 16 i).map (fun c => UInt8.ofNat c.toNat)
  List.replicate (2 - ds.length) 48 ++ ds

/-- Value of a hexadecimal numeral, most significant digit first. -/
def hexValue (s : Bytes) : Nat :=
  s.foldl (fun n c => n * 16 + (hex.fromHexChar c).getD 0) 0

/-! ## `swift/fetch.go` -/

/-- Go `map[string]string` of response headers, as an association list. -/
abbrev Headers := List (Bytes × Bytes)

/-- Go map read `headers[header]`: the empty string when the key is absent. -/
def Headers.get (headers : Headers) (header : Bytes) : Bytes :=
  (headers.lookup header).getD []

/-- Errors that `Fetch` can return: whatever the backend reported when opening
the object, or the error built by `getInt64FromHeader` with
`fmt.Errorf("Bad Header '%s': '%s': %s", header, value, err)`. -/
inductive Error (BackendError : Type) where
  | backend (e : BackendError)
  | badHeader (header value : Bytes) (cause : strconv.NumError)
deriving DecidableEq, Repr

/-- Go `getInt64FromHeader`. -/
def getInt64FromHeader {E : Type} (headers : Headers) (header : Bytes) :
    Int × Option (Error E) :=
  let value := headers.get header
  let (result, err) := strconv.ParseInt value 10 64
  match err with
  | some e => (result, some (.badHeader header value e))
  | none => (result, none)

/-- Header name literal `"Content-Length"`. -/
def contentLength : Bytes := ascii "Content-Length"

/-- Outcome of `sto.conn.ObjectOpen(cont, ref, true, nil)`: the opened stream
(`none` is the nil `io.ReadCloser`), the response headers and the error. -/
structure OpenResult (F E : Type) where
  f : Option F
  h : Headers
  err : Option E

/-- Go `(*swiftStorage).Fetch`. `refContainer` and the backend connection are
parameters. The results are the named results `file`, `size`, `err`; a bare
`return` yields their current values, and `file` and `size` are only
assigned by the final `return f, uint32(n), err`. -/
def Fetch {F E : Type} (refContainer : blob.Ref → Bytes × Bytes)
    (ObjectOpen : Bytes → Bytes → OpenResult F E) (br : blob.Ref) :
    Option F × Nat × Option (Error E) :=
  let (ref, cont) := refContainer br
  let o := ObjectOpen cont ref
  match o.err with
  | some e => (none, 0, some (.backend e))
  | none =>
    let (n, err) := getInt64FromHeader (E := E) o.h contentLength
    match err with
    | some e => (none, 0, some e)
    | none => (o.f, (n % 2 ^ 32).toNat, none)

end swift

/-! ## `client/client.go` -/

namespace client

/-- Go `type Client struct`. -/
structure Client where
  CDNBaseURL : Bytes
  ServerAddr : Bytes
deriving DecidableEq, Repr

/-- Go `type Resource struct`. -/
structure Resource where
  Filename : Bytes
  Path : Bytes
  URL : Bytes
  MD5 : Bytes
  Created : Bool
deriving DecidableEq, Repr

/-- Go `type Resources []*Resource`. Every element is a distinct record, so
a pointer to one is its index. -/
abbrev Resources := List Resource

/-- One entry of `protocol.StatResponse.Stat`. -/
structure StatItem where
  Path : Bytes
  MD5 : Bytes
deriving DecidableEq, Repr

/-- One entry of `protocol.UploadResponse.Received`. -/
structure ReceivedItem where
  Path : Bytes
deriving DecidableEq, Repr

/-- Errors returned by the client. -/
inductive Error where
  | io (msg : Bytes)
  | unexpectedStatusCode (code : Int)
  | expectedReceived (expected got : Nat)
  | uploadError (path : Bytes)
deriving DecidableEq, Repr

/-- First cut of `s` at the separator byte: the part before and the part after. -/
def cut (sep : UInt8) : Bytes → Option (Bytes × Bytes)
  | [] => none
  | c :: cs =>
    if c = sep then some ([], cs)
    else (cut sep cs).map (fun p => (c :: p.1, p.2))

/-- Go `strings.SplitN(s, "/", 2)`. -/
def SplitN2 (s : Bytes) : List Bytes :=
  match cut 47 s with
  | some (a, b) => [a, b]
  | none => [s]

/-- Go `pathToFilename`. -/
def pathToFilename (path : Bytes) : Bytes :=
  let pc := SplitN2 path
  if pc.length = 2 then pc.getD 1 [] else path

/-- Loop of `findByPath` from index `j` on. -/
def findFrom (filename : Bytes) : Resources → Nat → Option Nat
  | [], _ => none
  | r :: rs, j => if r.Filename = filename then some j else findFrom filename rs (j + 1)

/-- Go `Resources.findByPath`: the index of the record the returned pointer
refers to, `none` for nil. -/
def findByPath (res : Resources) (path : Bytes) : Option Nat :=
  let filename := pathToFilename path
  findFrom filename res 0

/-- Assignment through the pointer `res[j]`. -/
def assign (res : Resources) (j : Nat) (f : Resource → Resource) : Resources :=
  match res[j]? with
  | some cur => res.set j (f cur)
  | none => res

/-- Body of the loop over `sr.Stat` in `multiStat`. -/
def statStep (c : Client) (results : Resources) (si : StatItem) : Resources :=
  match findByPath results si.Path with
  | none => results
  | some j =>
    assign results j (fun cur =>
      { cur with Created := si.MD5 != cur.MD5, URL := c.CDNBaseURL ++ si.Path })

/-- Go `Client.multiStat` from the point where the response has been decoded
(`for _, si := range sr.Stat ...; return results, nil`). `results` are the
records built from the local files. -/
def multiStat (c : Client) (results : Resources) (stat : List StatItem) :
    Resources × Option Error :=
  (stat.foldl (statStep c) results, none)

/-- What the environment does during one `multiUpload`: whether building the
multipart request fails, whether the HTTP round trip fails, the status code
and the `Received` list left in `ur` by `parseResponse` (whose own error is
not looked at). -/
structure UploadReply where
  buildErr : Option Error
  doErr : Option Error
  StatusCode : Int
  Received : List ReceivedItem

/-- Loop over `ur.Received` in `multiUpload`. -/
def receivedLoop (c : Client) : Resources → List ReceivedItem → Resources × Option Error
  | results, [] => (results, none)
  | results, rec :: rest =>
    match findByPath results rec.Path with
    | none => (results, some (.uploadError rec.Path))
    | some j =>
      receivedLoop c (assign results j (fun cur => { cur with URL := c.CDNBaseURL ++ rec.Path })) rest

/-- Go `Client.multiUpload`: the records after the call and the error. -/
def multiUpload (c : Client) (results : Resources) (toUpload : List Bytes)
    (reply : UploadReply) : Resources × Option Error :=
  match reply.buildErr with
  | some e => (results, some e)
  | none =>
    match reply.doErr with
    | some e => (results, some e)
    | none =>
      if reply.StatusCode ≠ 201 then (results, some (.unexpectedStatusCode reply.StatusCode))
      else if reply.Received.length ≠ toUpload.length then
        (results, some (.expectedReceived toUpload.length reply.Received.length))
      else receivedLoop c results reply.Received

/-- Loop of `MultiUploader` that collects the paths to upload. -/
def collectUploads (files : Resources) : List Bytes :=
  files.foldl (fun toUpload res => if res.Created then toUpload ++ [res.Path] else toUpload) []

/-- Result of `MultiUploader`: the returned `files` (`none` is nil), the
error, and the upload requests handed to `multiUpload`, in order. -/
structure UploaderResult where
  files : Option Resources
  err : Option Error
  uploads : List (List Bytes)

/-- Go `Client.MultiUploader`. `stat` is what `c.multiStat(filepaths)`
returned; `server` answers an upload of the given paths. -/
def MultiUploader (c : Client) (stat : Resources × Option Error)
    (server : List Bytes → UploadReply) : UploaderResult :=
  match stat.2 with
  | some e => { files := none, err := some e, uploads := [] }
  | none =>
    let files := stat.1
    let toUpload := collectUploads files
    if toUpload.length = 0 then { files := some files, err := none, uploads := [] }
    else
      let r := multiUpload c files toUpload (server toUpload)
      { files := some r.1, err := r.2, uploads := [toUpload] }

/-- Effect of one stat entry on one record: what `statStep` does to the
record the entry correlates with, and nothing to any other. -/
def statEffect (c : Client) (si : StatItem) (r : Resource) : Resource :=
  if r.Filename = pathToFilename si.Path then
    { r with Created := si.MD5 != r.MD5, URL := c.CDNBaseURL ++ si.Path }
  else r

/-- Effect of a whole stat response on one record. -/
def statEffects (c : Client) (stat : List StatItem) (r : Resource) : Resource :=
  stat.foldl (fun r si => statEffect c si r) r

end client

/-! ## Concrete data used to exercise the theorems -/

namespace scenario

/-- A client whose CDN base URL has been resolved. -/
def cdn : client.Client :=
  { CDNBaseURL := ascii "http://cdn/", ServerAddr := ascii "http://localhost:6064" }

/-- Local file `a.txt` with digest `d1`, as `multiStat` records it. -/
def aTxt : client.Resource :=
  { Filename := ascii "a.txt", Path := ascii "/tmp/a.txt", URL := [], MD5 := ascii "d1",
    Created := true }

/-- Local file `b.txt` with digest `d2`. -/
def bTxt : client.Resource :=
  { Filename := ascii "b.txt", Path := ascii "/tmp/b.txt", URL := [], MD5 := ascii "d2",
    Created := true }

/-- Local file `c.txt` with digest `d3`. -/
def cTxt : client.Resource :=
  { Filename := ascii "c.txt", Path := ascii "/tmp/c.txt", URL := [], MD5 := ascii "d3",
    Created := true }

/-- Record of `a.txt` after a stat response that reports the same digest. -/
def aTxtKnown : client.Resource :=
  { aTxt with URL := ascii "http://cdn/c0/a.txt", Created := false }

/-- Stat response that knows `a.txt` with digest `d1` and nothing else. -/
def statA : List client.StatItem :=
  [{ Path := ascii "c0/a.txt", MD5 := ascii "d1" }]

/-- Upload reply with status 201 that lists `a.txt` and then a file nobody sent. -/
def replyUnknown : client.UploadReply :=
  { buildErr := none, doErr := none, StatusCode := 201,
    Received := [{ Path := ascii "c0/a.txt" }, { Path := ascii "c1/zzz.txt" }] }

/-- Upload reply with status 201 that lists two files. -/
def replyTwo : client.UploadReply :=
  { buildErr := none, doErr := none, StatusCode := 201,
    Received := [{ Path := ascii "c0/a.txt" }, { Path := ascii "c1/b.txt" }] }

/-- Backend that opens stream number 7 and reports the given `Content-Length`. -/
def backend (len : Bytes) : Bytes → Bytes → swift.OpenResult Nat Unit :=
  fun _ _ => { f := some 7, h := [(swift.contentLength, len)], err := none }

/-- Container resolution used in the scenarios. -/
def refContainer (br : blob.Ref) : Bytes × Bytes := (br.Id, ascii "c0")

end scenario

/-! # Theorems -/

open strconv hex swift blob client

/-! ## Bytes and digits -/

theorem byte_cases (P : UInt8 → Prop) (h : ∀ n, n < 256 → P (UInt8.ofNat n)) (c : UInt8) : P c := by
  have hc : c = UInt8.ofNat c.toNat := by
    apply UInt8.eq_of_toBitVec_eq
    apply BitVec.eq_of_toNat_eq
    simp [UInt8.ofNat, UInt8.toNat]
  rw [hc]
  exact h _ (UInt8.toNat_lt c)

theorem fromHexChar_eq_digitVal (c : UInt8) :
    fromHexChar c = (digitVal c).bind (fun d => if d < 16 then some d else none) := by
  revert c
  apply byte_cases
  decide!

theorem fromHexChar_hextable : ∀ d, d < 16 → fromHexChar (hextable d) = some d := by
  decide!

/-! ## `blob/ref.go` -/

theorem null_eq : blob.null = [110, 117, 108, 108] := by decide

theorem quoted_getElem?_last (s : Bytes) :
    (34 :: (s ++ [34]) : Bytes)[(34 :: (s ++ [34]) : Bytes).length - 1]? = some 34 := by
  simp [List.getElem?_cons, List.getElem?_append_right]

theorem quoted_inner (s : Bytes) :
    ((34 :: (s ++ [34]) : Bytes).take ((34 :: (s ++ [34]) : Bytes).length - 1)).drop 1 = s := by
  simp [List.take_append_eq_append_take]

/-- Claim C4 (JSON round trip): for every reference `r`, whatever its identifier
bytes, `MarshalJSON r` returns no error, and `UnmarshalJSON` applied to the
marshalled bytes (on any receiver `r0`) returns no error and leaves the
receiver equal to `r`. -/
theorem marshal_unmarshal_roundtrip (r r0 : Ref) :
    (MarshalJSON r).2 = none ∧ UnmarshalJSON r0 (MarshalJSON r).1 = (r, none) := by
  refine ⟨rfl, ?_⟩
  have hd : (MarshalJSON r).1 = 34 :: (r.Id ++ [34]) := by
    simp [MarshalJSON, Ref.String]
  rw [hd]
  unfold UnmarshalJSON
  have h1 : ¬ ((34 :: (r.Id ++ [34]) : Bytes).length = 0 ∨ (34 :: (r.Id ++ [34]) : Bytes) = null) := by
    rw [null_eq]; simp
  have h2 : ¬ ((34 :: (r.Id ++ [34]) : Bytes).length < 2 ∨ (34 :: (r.Id ++ [34]) : Bytes)[0]? ≠ some 34 ∨
      (34 :: (r.Id ++ [34]) : Bytes)[(34 :: (r.Id ++ [34]) : Bytes).length - 1]? ≠ some 34) := by
    rw [quoted_getElem?_last]; simp
  rw [if_neg h1, if_neg h2]
  simp only [quoted_inner]

theorem getElem?_zero_eq_head? (d : Bytes) : d[0]? = d.head? := by
  cases d <;> simp

theorem getElem?_last_eq_getLast? (d : Bytes) : d[d.length - 1]? = d.getLast? := by
  rw [List.getLast?_eq_getElem?]

/-- Claim C5 (decoding failure): on an empty payload or the literal `null`,
`UnmarshalJSON` returns no error and leaves the receiver unchanged; on every
other payload that is shorter than two bytes or does not both begin and end
with a double quote it returns the format error that carries the payload and
leaves the receiver unchanged; and an error is returned for no other payload. -/
theorem unmarshal_failure (r : Ref) (d : Bytes) :
    ((d = [] ∨ d = null) → UnmarshalJSON r d = (r, none)) ∧
    (d ≠ [] → d ≠ null →
      (d.length < 2 ∨ ¬ (d.head? = some 34 ∧ d.getLast? = some 34)) →
      UnmarshalJSON r d = (r, some (.expectingJSONString d))) ∧
    ((UnmarshalJSON r d).2 ≠ none →
      d ≠ [] ∧ d ≠ null ∧ (d.length < 2 ∨ ¬ (d.head? = some 34 ∧ d.getLast? = some 34))) := by
  unfold UnmarshalJSON
  rw [getElem?_zero_eq_head?, getElem?_last_eq_getLast?]
  refine ⟨?_, ?_, ?_⟩
  · intro h
    have : d.length = 0 ∨ d = null := by
      rcases h with h | h
      · left; simp [h]
      · right; exact h
    rw [if_pos this]
  · intro h1 h2 h3
    have hn : ¬ (d.length = 0 ∨ d = null) := by
      rintro (h | h)
      · exact h1 (List.length_eq_zero.mp h)
      · exact h2 h
    have hq : d.length < 2 ∨ d.head? ≠ some 34 ∨ d.getLast? ≠ some 34 := by
      rcases h3 with h | h
      · left; exact h
      · right; by_contra hc; push_neg at hc; exact h hc
    rw [if_neg hn, if_pos hq]
  · intro h
    by_cases hn : d.length = 0 ∨ d = null
    · rw [if_pos hn] at h; exact absurd rfl h
    · have h1 : d ≠ [] := fun hc => hn (Or.inl (by simp [hc]))
      have h2 : d ≠ null := fun hc => hn (Or.inr hc)
      refine ⟨h1, h2, ?_⟩
      rw [if_neg hn] at h
      by_cases hq : d.length < 2 ∨ d.head? ≠ some 34 ∨ d.getLast? ≠ some 34
      · rcases hq with hq | hq
        · left; exact hq
        · right; intro hc; rcases hq with hq | hq
          · exact hq hc.1
          · exact hq hc.2
      · rw [if_neg hq] at h; exact absurd rfl h

/-- Witness for C5: the unquoted payload `ab` is rejected with the error naming it. -/
theorem unmarshal_failure_witness :
    UnmarshalJSON ⟨ascii "x"⟩ (ascii "ab") =
      (⟨ascii "x"⟩, some (.expectingJSONString (ascii "ab"))) :=
  (unmarshal_failure ⟨ascii "x"⟩ (ascii "ab")).2.1 (by decide) (by decide) (by decide)

theorem Ext_photo_JPG : filepath.Ext (ascii "photo.JPG") = ascii ".JPG" := by decide

/-- Claim C6 (identifier shape), evaluated on the code: for the name
`photo.JPG` and any token `t`, `NewRef` yields `t` followed by two dots and
`JPG`, because `filepath.Ext` returns the extension with its leading dot and
`NewRef` adds a dot of its own; the identifier is not `t` followed by `.JPG`. -/
theorem NewRef_photo_JPG (t : Bytes) :
    (NewRef t (ascii "photo.JPG")).Id = t ++ ascii "..JPG" ∧
    (NewRef t (ascii "photo.JPG")).Id ≠ t ++ ascii ".JPG" := by
  have h : (NewRef t (ascii "photo.JPG")).Id = t ++ ascii "..JPG" := by
    unfold NewRef
    rw [Ext_photo_JPG]
    have e1 : (if ascii ".JPG" = [] then bin else ascii ".JPG") = ascii ".JPG" := by decide
    simp only [e1, List.nil_append, List.append_assoc]
    congr 1
  refine ⟨h, ?_⟩
  rw [h]
  intro hc
  have := List.append_cancel_left hc
  revert this
  decide

/-! ## `swift/shard.go` -/

theorem digitVal_of_fromHexChar {c : UInt8} {d : Nat} (h : fromHexChar c = some d) :
    digitVal c = some d ∧ d < 16 := by
  rw [fromHexChar_eq_digitVal] at h
  cases hv : digitVal c with
  | none => rw [hv] at h; simp at h
  | some e =>
    rw [hv] at h
    simp only [Option.some_bind] at h
    split_ifs at h with he
    simp only [Option.some.injEq] at h
    subst h
    exact ⟨rfl, he⟩

theorem digitVal_of_fromHexChar_none {c : UInt8} (h : fromHexChar c = none) :
    digitVal c = none ∨ ∃ e, digitVal c = some e ∧ 16 ≤ e := by
  rw [fromHexChar_eq_digitVal] at h
  cases hv : digitVal c with
  | none => exact Or.inl rfl
  | some e =>
    rw [hv] at h
    simp only [Option.some_bind] at h
    split_ifs at h with he
    exact Or.inr ⟨e, rfl, by omega⟩

theorem parseUintLoop16_step (c : UInt8) (cs : Bytes) (n d : Nat)
    (hd : fromHexChar c = some d) (hn : n < 2 ^ 28) :
    parseUintLoop 16 (2 ^ 32 - 1) ((2 ^ 64 - 1) / 16 + 1) (c :: cs) n =
      parseUintLoop 16 (2 ^ 32 - 1) ((2 ^ 64 - 1) / 16 + 1) cs (n * 16 + d) := by
  obtain ⟨h1, h2⟩ := digitVal_of_fromHexChar hd
  rw [parseUintLoop, h1]
  simp only
  have e1 : ¬ (d ≥ 16) := by omega
  have e2 : ¬ (n ≥ (2 ^ 64 - 1) / 16 + 1) := by norm_num at hn ⊢; omega
  have e3 : (n * 16 + d) % 2 ^ 64 = n * 16 + d := by
    apply Nat.mod_eq_of_lt; norm_num at hn ⊢; omega
  rw [if_neg e1, if_neg e2, e3]
  have e4 : ¬ (n * 16 + d < n * 16 ∨ n * 16 + d > 2 ^ 32 - 1) := by
    norm_num at hn ⊢; omega
  rw [if_neg e4]

theorem parseUintLoop16_bad (c : UInt8) (cs : Bytes) (n : Nat)
    (hd : fromHexChar c = none) :
    parseUintLoop 16 (2 ^ 32 - 1) ((2 ^ 64 - 1) / 16 + 1) (c :: cs) n =
      (0, some .ErrSyntaxKind) := by
  rcases digitVal_of_fromHexChar_none hd with h | ⟨e, h, he⟩
  · rw [parseUintLoop, h]
  · rw [parseUintLoop, h]
    simp only
    rw [if_pos (by omega)]

theorem fromHexChar_lt {c : UInt8} {d : Nat} (h : fromHexChar c = some d) : d < 16 :=
  (digitVal_of_fromHexChar h).2

theorem ParseUint_four_digits (c1 c2 c3 c4 : UInt8) (d1 d2 d3 d4 : Nat)
    (h1 : fromHexChar c1 = some d1) (h2 : fromHexChar c2 = some d2)
    (h3 : fromHexChar c3 = some d3) (h4 : fromHexChar c4 = some d4) :
    ParseUint [c1, c2, c3, c4] 16 32 = (((d1 * 16 + d2) * 16 + d3) * 16 + d4, none) := by
  have b1 := fromHexChar_lt h1
  have b2 := fromHexChar_lt h2
  have b3 := fromHexChar_lt h3
  have b4 := fromHexChar_lt h4
  unfold ParseUint
  rw [if_neg (by simp)]
  rw [parseUintLoop16_step c1 _ 0 d1 h1 (by norm_num),
    parseUintLoop16_step c2 _ _ d2 h2 (by norm_num; omega),
    parseUintLoop16_step c3 _ _ d3 h3 (by norm_num; omega),
    parseUintLoop16_step c4 _ _ d4 h4 (by norm_num; omega)]
  simp [parseUintLoop]

theorem ParseUint_four_bad (c1 c2 c3 c4 : UInt8)
    (h : fromHexChar c1 = none ∨ fromHexChar c2 = none ∨ fromHexChar c3 = none ∨
      fromHexChar c4 = none) :
    ParseUint [c1, c2, c3, c4] 16 32 = (0, some .ErrSyntaxKind) := by
  unfold ParseUint
  rw [if_neg (by simp)]
  cases h1 : fromHexChar c1 with
  | none => exact parseUintLoop16_bad c1 _ 0 h1
  | some d1 =>
    have b1 := fromHexChar_lt h1
    rw [parseUintLoop16_step c1 _ 0 d1 h1 (by norm_num)]
    cases h2 : fromHexChar c2 with
    | none => exact parseUintLoop16_bad c2 _ _ h2
    | some d2 =>
      have b2 := fromHexChar_lt h2
      rw [parseUintLoop16_step c2 _ _ d2 h2 (by norm_num; omega)]
      cases h3 : fromHexChar c3 with
      | none => exact parseUintLoop16_bad c3 _ _ h3
      | some d3 =>
        have b3 := fromHexChar_lt h3
        rw [parseUintLoop16_step c3 _ _ d3 h3 (by norm_num; omega)]
        cases h4 : fromHexChar c4 with
        | none => exact parseUintLoop16_bad c4 _ _ h4
        | some d4 =>
          rw [h1, h2, h3, h4] at h
          simp at h

theorem sum32_four_digits (c1 c2 c3 c4 : UInt8) (d1 d2 d3 d4 : Nat) (rest : Bytes)
    (h1 : fromHexChar c1 = some d1) (h2 : fromHexChar c2 = some d2)
    (h3 : fromHexChar c3 = some d3) (h4 : fromHexChar c4 = some d4) :
    sum32 (c1 :: c2 :: c3 :: c4 :: rest) = some (((d1 * 16 + d2) * 16 + d3) * 16 + d4) := by
  have b1 := fromHexChar_lt h1
  have b2 := fromHexChar_lt h2
  have b3 := fromHexChar_lt h3
  have b4 := fromHexChar_lt h4
  unfold sum32
  rw [if_neg (by simp)]
  simp only [List.take_succ_cons, List.take_zero]
  rw [ParseUint_four_digits c1 c2 c3 c4 d1 d2 d3 d4 h1 h2 h3 h4]
  simp only [Option.some.injEq]
  apply Nat.mod_eq_of_lt
  norm_num
  omega

theorem fourDigits_eq (v : Nat) (hv : v < 65536) :
    fourDigits v = [hextable (v / 256 / 16), hextable (v / 256 % 16),
      hextable (v % 256 / 16), hextable (v % 256 % 16)] := by
  have e1 : (UInt8.ofNat (v / 256)).toNat = v / 256 :=
    UInt8.toNat_ofNat_of_lt (by simp [UInt8.size]; omega)
  have e2 : (UInt8.ofNat (v % 256)).toNat = v % 256 :=
    UInt8.toNat_ofNat_of_lt (by simp [UInt8.size]; omega)
  simp [fourDigits, EncodeToString, e1, e2]

theorem sum32_fourDigits (v : Nat) (hv : v < 65536) :
    sum32 (fourDigits v) = some v := by
  rw [fourDigits_eq v hv]
  rw [sum32_four_digits _ _ _ _ (v / 256 / 16) (v / 256 % 16) (v % 256 / 16) (v % 256 % 16) []
    (fromHexChar_hextable _ (by omega)) (fromHexChar_hextable _ (by omega))
    (fromHexChar_hextable _ (by omega)) (fromHexChar_hextable _ (by omega))]
  simp only [Option.some.injEq]
  omega

theorem num_fourDigits (v : Nat) (hv : v < 65536) (rest : Bytes) :
    num (fourDigits v ++ rest) = some (v % 1024) := by
  rw [fourDigits_eq v hv]
  unfold num
  simp only [List.cons_append, List.nil_append]
  rw [sum32_four_digits _ _ _ _ (v / 256 / 16) (v / 256 % 16) (v % 256 / 16) (v % 256 % 16) rest
    (fromHexChar_hextable _ (by omega)) (fromHexChar_hextable _ (by omega))
    (fromHexChar_hextable _ (by omega)) (fromHexChar_hextable _ (by omega))]
  simp only [Option.map_some', Option.some.injEq]
  have : shardCount % 2 ^ 32 = 1024 := by decide
  rw [this]
  omega

theorem card_mod_1024 (i : Nat) (hi : i < 1024) :
    ((Finset.range 65536).filter (fun v => v % 1024 = i)).card = 64 := by
  have h := Nat.count_modEq_card (r := 1024) (b := 65536) (by norm_num) i
  rw [Nat.count_eq_card_filter_range] at h
  have e : (Finset.range 65536).filter (fun v => v % 1024 = i) =
      (Finset.range 65536).filter (fun v => v ≡ i [MOD 1024]) := by
    apply Finset.filter_congr
    intro v _
    unfold Nat.ModEq
    rw [Nat.mod_eq_of_lt hi]
  rw [e, h]
  norm_num

/-- Claim C8 (coverage and uniformity): `num` maps a digest that begins with
four hexadecimal digits to their value modulo 1024; for the 65536 four-digit
beginnings `fourDigits v`, which are pairwise distinct, `num` returns
`v % 1024`, and every bucket index below 1024 is the image of exactly 64 of
them. -/
theorem num_coverage :
    (∀ (c1 c2 c3 c4 : UInt8) (d1 d2 d3 d4 : Nat) (rest : Bytes),
      fromHexChar c1 = some d1 → fromHexChar c2 = some d2 →
      fromHexChar c3 = some d3 → fromHexChar c4 = some d4 →
      num (c1 :: c2 :: c3 :: c4 :: rest) =
        some ((((d1 * 16 + d2) * 16 + d3) * 16 + d4) % 1024)) ∧
    (∀ v, v < 65536 → ∀ rest, num (fourDigits v ++ rest) = some (v % 1024)) ∧
    (∀ v w, v < 65536 → w < 65536 → fourDigits v = fourDigits w → v = w) ∧
    (∀ i, i < 1024 →
      ((Finset.range 65536).filter (fun v => num (fourDigits v) = some i)).card = 64) := by
  refine ⟨?_, ?_, ?_, ?_⟩
  · intro c1 c2 c3 c4 d1 d2 d3 d4 rest h1 h2 h3 h4
    unfold num
    rw [sum32_four_digits c1 c2 c3 c4 d1 d2 d3 d4 rest h1 h2 h3 h4]
    rfl
  · intro v hv rest
    exact num_fourDigits v hv rest
  · intro v w hv hw h
    have e1 := sum32_fourDigits v hv
    have e2 := sum32_fourDigits w hw
    rw [h, e2] at e1
    exact (Option.some.inj e1).symm
  · intro i hi
    have e : (Finset.range 65536).filter (fun v => num (fourDigits v) = some i) =
        (Finset.range 65536).filter (fun v => v % 1024 = i) := by
      apply Finset.filter_congr
      intro v hv
      have h := num_fourDigits v (Finset.mem_range.mp hv) []
      rw [List.append_nil] at h
      rw [h]
      simp
    rw [e]
    exact card_mod_1024 i hi

/-- Witness for C8: the digest beginning `ffff` falls in bucket 1023. -/
theorem num_coverage_witness :
    num (fourDigits 65535 ++ ascii "0123") = some (65535 % 1024) :=
  num_coverage.2.1 65535 (by decide) (ascii "0123")

theorem shardCount_eq : shardCount = 1024 := by decide

theorem Sprintf_02x_eq_hexNumeral2 : ∀ i, i < 1024 → fmt.Sprintf_02x i = hexNumeral2 i := by
  decide!

theorem hexValue_Sprintf_02x : ∀ i, i < 1024 → hexValue (fmt.Sprintf_02x i) = i := by
  decide!

theorem newSharder_getElem? (i : Nat) (hi : i < 1024) :
    newSharder[i]? = some (fmt.Sprintf_02x i) := by
  unfold newSharder
  rw [List.getElem?_map, List.getElem?_range (by rw [shardCount_eq]; exact hi)]
  rfl

/-- Claim C7 (shard table): `newSharder` has exactly 1024 entries, the entry at
index `i` is the lower-case hexadecimal numeral of `i` padded to at least two
digits, and entries at different indices differ. -/
theorem newSharder_table :
    newSharder.length = 1024 ∧
    (∀ i, i < 1024 → newSharder[i]? = some (hexNumeral2 i)) ∧
    (∀ i j, i < 1024 → j < 1024 → newSharder[i]? = newSharder[j]? → i = j) := by
  refine ⟨?_, ?_, ?_⟩
  · simp [newSharder, shardCount_eq]
  · intro i hi
    rw [newSharder_getElem? i hi, Sprintf_02x_eq_hexNumeral2 i hi]
  · intro i j hi hj h
    rw [newSharder_getElem? i hi, newSharder_getElem? j hj] at h
    have h2 := congrArg hexValue (Option.some.inj h)
    rw [hexValue_Sprintf_02x i hi, hexValue_Sprintf_02x j hj] at h2
    exact h2

/-- Witness for C7: entry 255 and the injectivity clause at index 10. -/
theorem newSharder_table_witness :
    newSharder[255]? = some (hexNumeral2 255) ∧
    (newSharder[10]? = newSharder[10]? → 10 = 10) :=
  ⟨newSharder_table.2.1 255 (by decide), newSharder_table.2.2 10 10 (by decide) (by decide)⟩

/-- Counterexample to claim C9 as stated: the digest `zzzz` has four bytes, none
of them a hexadecimal digit, and `sum32` and `num` return 0 for it instead of
failing. -/
theorem num_zzzz_bucket_zero :
    4 ≤ (ascii "zzzz").length ∧ (∃ c ∈ (ascii "zzzz").take 4, fromHexChar c = none) ∧
    sum32 (ascii "zzzz") = some 0 ∧ num (ascii "zzzz") = some 0 := by
  decide

/-- Claim C9 as amended: a digest shorter than four bytes makes `sum32` and `num`
fail (the slice expression panics); a digest of at least four bytes whose first
four bytes are not all hexadecimal digits makes `sum32` and `num` return 0,
because the parse error is discarded. -/
theorem num_invalid_digest (digest : Bytes) :
    (digest.length < 4 → sum32 digest = none ∧ num digest = none) ∧
    (4 ≤ digest.length → (∃ c ∈ digest.take 4, fromHexChar c = none) →
      sum32 digest = some 0 ∧ num digest = some 0) := by
  constructor
  · intro h
    have : sum32 digest = none := by unfold sum32; rw [if_pos h]
    exact ⟨this, by unfold num; rw [this]; rfl⟩
  · intro h hex
    match digest, h, hex with
    | c1 :: c2 :: c3 :: c4 :: rest, _, hex =>
      simp only [List.take_succ_cons, List.take_zero, List.mem_cons, List.mem_singleton,
        List.not_mem_nil, or_false, exists_eq_or_imp, exists_eq_left] at hex
      have hp := ParseUint_four_bad c1 c2 c3 c4 hex
      have hs : sum32 (c1 :: c2 :: c3 :: c4 :: rest) = some 0 := by
        unfold sum32
        rw [if_neg (by simp)]
        simp only [List.take_succ_cons, List.take_zero]
        rw [hp]
        rfl
      exact ⟨hs, by unfold num; rw [hs]; rfl⟩

/-- Witness for C9: the two-byte digest `zz` fails. -/
theorem num_invalid_digest_witness :
    sum32 (ascii "zz") = none ∧ num (ascii "zz") = none :=
  (num_invalid_digest (ascii "zz")).1 (by decide)

/-! ## `strconv.ParseInt` and `swift/fetch.go` -/

theorem decimalDigit_eq_digitVal (c : UInt8) :
    decimalDigit c = (digitVal c).bind (fun d => if d < 10 then some d else none) := by
  revert c
  apply byte_cases
  decide!

theorem decimalFrom_ge : ∀ (cs : Bytes) (n v : Nat), decimalFrom cs n = some v → n ≤ v := by
  intro cs
  induction cs with
  | nil => intro n v h; simp [decimalFrom] at h; omega
  | cons c cs ih =>
    intro n v h
    unfold decimalFrom at h
    cases hd : decimalDigit c with
    | none => rw [hd] at h; simp at h
    | some d =>
      rw [hd] at h
      have := ih _ _ h
      omega

/-- An error from the loop is a syntax error with value 0 or a range error with `maxVal`. -/
theorem parseUintLoop_err (base maxVal cutoff : Nat) :
    ∀ (cs : Bytes) (n : Nat) (e : NumError), (parseUintLoop base maxVal cutoff cs n).2 = some e →
      parseUintLoop base maxVal cutoff cs n = (0, some .ErrSyntaxKind) ∨
      parseUintLoop base maxVal cutoff cs n = (maxVal, some .ErrRangeKind) := by
  intro cs
  induction cs with
  | nil => intro n e h; simp [parseUintLoop] at h
  | cons c cs ih =>
    intro n e h
    unfold parseUintLoop at h ⊢
    cases hd : digitVal c with
    | none => left; rfl
    | some d =>
      rw [hd] at h
      simp only at h ⊢
      split_ifs at h ⊢ with h1 h2 h3
      · left; rfl
      · right; rfl
      · right; rfl
      · exact ih _ e h

theorem parseUintLoop10 :
    ∀ (cs : Bytes) (n : Nat), n ≤ 2 ^ 64 - 1 →
      match decimalFrom cs n with
      | none => (parseUintLoop 10 (2 ^ 64 - 1) ((2 ^ 64 - 1) / 10 + 1) cs n).2 ≠ none
      | some v =>
        if v ≤ 2 ^ 64 - 1 then
          parseUintLoop 10 (2 ^ 64 - 1) ((2 ^ 64 - 1) / 10 + 1) cs n = (v, none)
        else (parseUintLoop 10 (2 ^ 64 - 1) ((2 ^ 64 - 1) / 10 + 1) cs n).2 ≠ none := by
  intro cs
  induction cs with
  | nil =>
    intro n hn
    simp only [decimalFrom, parseUintLoop]
    rw [if_pos hn]
    trivial
  | cons c cs ih =>
    intro n hn
    have hc := decimalDigit_eq_digitVal c
    unfold decimalFrom parseUintLoop
    cases hd : digitVal c with
    | none =>
      rw [hd] at hc
      simp only [Option.none_bind] at hc
      rw [hc]
      simp
    | some d =>
      rw [hd] at hc
      simp only [Option.some_bind] at hc
      by_cases hd10 : d < 10
      · rw [if_pos hd10] at hc
        rw [hc]
        simp only
        rw [if_neg (by omega)]
        by_cases hcut : n ≥ (2 ^ 64 - 1) / 10 + 1
        · rw [if_pos hcut]
          cases hv : decimalFrom cs (n * 10 + d) with
          | none => simp
          | some v =>
            have := decimalFrom_ge _ _ _ hv
            simp only
            rw [if_neg (by norm_num at hcut ⊢; omega)]
            simp
        · rw [if_neg hcut]
          by_cases hov : n * 10 + d ≤ 2 ^ 64 - 1
          · have e3 : (n * 10 + d) % 2 ^ 64 = n * 10 + d := by
              apply Nat.mod_eq_of_lt; norm_num at hov ⊢; omega
            rw [e3, if_neg (by norm_num at hov ⊢; omega)]
            exact ih _ hov
          · have e4 : (n * 10 + d) % 2 ^ 64 < n * 10 := by
              norm_num at hov hcut ⊢; omega
            rw [if_pos (Or.inl e4)]
            cases hv : decimalFrom cs (n * 10 + d) with
            | none => simp
            | some v =>
              have := decimalFrom_ge _ _ _ hv
              simp only
              rw [if_neg (by norm_num at hov ⊢; omega)]
              simp
      · rw [if_neg hd10] at hc
        rw [hc]
        simp only
        rw [if_pos (by omega)]
        simp


theorem ParseUint10 (s : Bytes) :
    match decimalNat s with
    | none => (ParseUint s 10 64).2 ≠ none
    | some v =>
      if v ≤ 2 ^ 64 - 1 then ParseUint s 10 64 = (v, none)
      else (ParseUint s 10 64).2 ≠ none := by
  unfold decimalNat ParseUint
  by_cases hs : s = []
  · rw [if_pos hs, if_pos hs]; simp
  · rw [if_neg hs, if_neg hs]
    exact parseUintLoop10 s 0 (by norm_num)

theorem ParseUint_err (s : Bytes) (base bitSize : Nat) (e : NumError)
    (h : (ParseUint s base bitSize).2 = some e) :
    ParseUint s base bitSize = (0, some .ErrSyntaxKind) ∨
    ParseUint s base bitSize = (2 ^ bitSize - 1, some .ErrRangeKind) := by
  unfold ParseUint at h ⊢
  by_cases hs : s = []
  · rw [if_pos hs]; left; rfl
  · rw [if_neg hs] at h ⊢
    exact parseUintLoop_err _ _ _ _ _ e h

/-- Sign handling of `ParseInt` once the unsigned part is known. -/
theorem ParseInt_of_unsigned (c : UInt8) (rest : Bytes) :
    ParseInt (c :: rest) 10 64 =
      (let neg : Bool := c == 45
       let s1 : Bytes := if c = 43 ∨ c = 45 then rest else c :: rest
       let p := ParseUint s1 10 64
       if p.2 = some .ErrSyntaxKind then (0, p.2)
       else if !neg ∧ p.1 ≥ 2 ^ 63 then ((2 : Int) ^ 63 - 1, some .ErrRangeKind)
       else if neg ∧ p.1 > 2 ^ 63 then (-(2 : Int) ^ 63, some .ErrRangeKind)
       else (if neg then -(Int.ofNat p.1) else Int.ofNat p.1, none)) := by
  simp only [ParseInt]
  norm_num

theorem ParseUint10_none (s : Bytes) (h : decimalNat s = none) :
    (ParseUint s 10 64).2 ≠ none := by
  have hu := ParseUint10 s
  rw [h] at hu
  exact hu

theorem ParseUint10_some (s : Bytes) (v : Nat) (h : decimalNat s = some v)
    (hv : v ≤ 2 ^ 64 - 1) : ParseUint s 10 64 = (v, none) := by
  have hu := ParseUint10 s
  rw [h] at hu
  simp only at hu
  rw [if_pos hv] at hu
  exact hu

theorem ParseUint10_big (s : Bytes) (v : Nat) (h : decimalNat s = some v)
    (hv : ¬ v ≤ 2 ^ 64 - 1) : (ParseUint s 10 64).2 ≠ none := by
  have hu := ParseUint10 s
  rw [h] at hu
  simp only at hu
  rw [if_neg hv] at hu
  exact hu

theorem ParseInt_signed (neg : Bool) (s1 : Bytes) :
    let p := ParseUint s1 10 64
    let r : Int × Option NumError :=
      if p.2 = some .ErrSyntaxKind then (0, p.2)
       else if !neg ∧ p.1 ≥ 2 ^ 63 then ((2 : Int) ^ 63 - 1, some .ErrRangeKind)
       else if neg ∧ p.1 > 2 ^ 63 then (-(2 : Int) ^ 63, some .ErrRangeKind)
       else (if neg then -(Int.ofNat p.1) else Int.ofNat p.1, none)
    match (decimalNat s1).map (fun (v : Nat) => if neg then -(v : Int) else (v : Int)) with
    | none => r.2 ≠ none
    | some n => if -(2 : Int) ^ 63 ≤ n ∧ n < (2 : Int) ^ 63 then r = (n, none) else r.2 ≠ none := by
  intro p r
  have herr : ∀ e, p.2 = some e → r.2 ≠ none := by
    intro e he
    rcases ParseUint_err s1 10 64 e he with h | h
    · simp only [r, p, h]; simp
    · simp only [r, p, h]
      cases neg <;> simp
  cases hv : decimalNat s1 with
  | none =>
    obtain ⟨e, he⟩ := Option.ne_none_iff_exists'.mp (ParseUint10_none s1 hv)
    exact herr e he
  | some v =>
    simp only [Option.map_some']
    by_cases hle : v ≤ 2 ^ 64 - 1
    · have hu := ParseUint10_some s1 v hv hle
      have hr : r = (if !neg ∧ v ≥ 2 ^ 63 then ((2 : Int) ^ 63 - 1, some .ErrRangeKind)
          else if neg ∧ v > 2 ^ 63 then (-(2 : Int) ^ 63, some .ErrRangeKind)
          else (if neg then -(Int.ofNat v) else Int.ofNat v, none)) := by
        simp only [r, p, hu]
        rw [if_neg (by simp)]
      rw [hr]
      cases neg
      · simp only [Bool.false_eq_true, if_false, Bool.not_false, true_and, false_and]
        have hcase : v < 2 ^ 63 ∨ ¬ (v < 2 ^ 63) := Classical.em _
        apply Or.elim hcase
        rotate_left
        · intro h63c
          have h63 : v ≥ 2 ^ 63 := not_lt.mp h63c
          have : ¬ (-(2 : Int) ^ 63 ≤ (v : Int) ∧ (v : Int) < (2 : Int) ^ 63) := by
            intro hc
            have := hc.2
            have h2 : ((2 : Nat) ^ 63 : Int) ≤ (v : Int) := by exact_mod_cast h63
            norm_num at h2 this
            omega
          rw [if_neg this, if_pos h63]
          simp
        · intro h63n
          have h63 : ¬ (v ≥ 2 ^ 63) := not_le.mpr h63n
          have : (-(2 : Int) ^ 63 ≤ (v : Int) ∧ (v : Int) < (2 : Int) ^ 63) := by
            have h2 : (v : Int) < ((2 : Nat) ^ 63 : Int) := by exact_mod_cast h63n
            norm_num at h2 ⊢
            omega
          rw [if_pos this, if_neg h63]
          rfl
      · simp only [if_true, Bool.not_true, Bool.false_eq_true, false_and, if_false, true_and]
        have hcase : 2 ^ 63 < v ∨ ¬ (2 ^ 63 < v) := Classical.em _
        apply Or.elim hcase
        · intro h63
          have : ¬ (-(2 : Int) ^ 63 ≤ -(v : Int) ∧ -(v : Int) < (2 : Int) ^ 63) := by
            intro hc
            have := hc.1
            have h2 : ((2 : Nat) ^ 63 : Int) < (v : Int) := by exact_mod_cast h63
            norm_num at h2 this
            omega
          rw [if_neg this, if_pos h63]
          simp
        · intro h63
          have h63n : v ≤ 2 ^ 63 := not_lt.mp h63
          have : (-(2 : Int) ^ 63 ≤ -(v : Int) ∧ -(v : Int) < (2 : Int) ^ 63) := by
            have h2 : (v : Int) ≤ ((2 : Nat) ^ 63 : Int) := by exact_mod_cast h63n
            norm_num at h2 ⊢
            omega
          rw [if_pos this, if_neg h63]
          rfl
    · obtain ⟨e, he⟩ := Option.ne_none_iff_exists'.mp (ParseUint10_big s1 v hv hle)
      have hout : ¬ (-(2 : Int) ^ 63 ≤ (if neg then -(v : Int) else (v : Int)) ∧
          (if neg then -(v : Int) else (v : Int)) < (2 : Int) ^ 63) := by
        have h2 : ((2 : Nat) ^ 64 - 1 : Nat) < v := not_le.mp hle
        have h3 : (((2 : Nat) ^ 64 - 1 : Nat) : Int) < (v : Int) := by exact_mod_cast h2
        cases neg
        · simp only [Bool.false_eq_true, if_false]
          intro hc
          have := hc.2
          norm_num at h3 this
          omega
        · simp only [if_true]
          intro hc
          have := hc.1
          norm_num at h3 this
          omega
      rw [if_neg hout]
      exact herr e he

theorem ParseInt_decimal (s : Bytes) :
    match decimalInt s with
    | none => (ParseInt s 10 64).2 ≠ none
    | some n =>
      if -(2 : Int) ^ 63 ≤ n ∧ n < (2 : Int) ^ 63 then ParseInt s 10 64 = (n, none)
      else (ParseInt s 10 64).2 ≠ none := by
  cases s with
  | nil => simp [decimalInt, ParseInt]
  | cons c rest =>
    rw [ParseInt_of_unsigned]
    unfold decimalInt
    by_cases h45 : c = 45
    · subst h45
      have h := ParseInt_signed true rest
      simp only [if_true] at h
      simpa using h
    · by_cases h43 : c = 43
      · subst h43
        have h := ParseInt_signed false rest
        simp only [Bool.false_eq_true, if_false] at h
        simpa using h
      · have h := ParseInt_signed false (c :: rest)
        simp only [Bool.false_eq_true, if_false] at h
        have hneg : (c == 45) = false := by simpa using h45
        simp only [hneg, h45, h43, or_self, if_false]
        simpa using h

theorem ParseInt_of_decimal (s : Bytes) (n : Int) (h : decimalInt s = some n)
    (hlo : -(2 : Int) ^ 63 ≤ n) (hhi : n < (2 : Int) ^ 63) :
    ParseInt s 10 64 = (n, none) := by
  have hp := ParseInt_decimal s
  rw [h] at hp
  simp only at hp
  rw [if_pos ⟨hlo, hhi⟩] at hp
  exact hp

theorem ParseInt_not_decimal (s : Bytes) (h : ¬ isDecimalInt64 s) :
    (ParseInt s 10 64).2 ≠ none := by
  have hp := ParseInt_decimal s
  cases hd : decimalInt s with
  | none => rw [hd] at hp; exact hp
  | some n =>
    rw [hd] at hp
    simp only at hp
    by_cases hr : -(2 : Int) ^ 63 ≤ n ∧ n < (2 : Int) ^ 63
    · exact absurd ⟨n, hd, hr.1, hr.2⟩ h
    · rw [if_neg hr] at hp
      exact hp

/-- Counterexample to claim C10 as stated. With a backend that opens stream 7
and a `Content-Length` of `abc`, `Fetch` returns the bad-header error together
with a nil stream, so the opened stream is not handed back. With a
`Content-Length` of `4294967301`, a decimal 64-bit integer, `Fetch` succeeds
with size 5, which is not the declared length. -/
theorem Fetch_drops_stream_and_truncates :
    (Fetch scenario.refContainer (scenario.backend (ascii "abc")) ⟨ascii "r"⟩ =
      (none, 0, some (.badHeader contentLength (ascii "abc") .ErrSyntaxKind))) ∧
    (decimalInt (ascii "4294967301") = some 4294967301 ∧
      Fetch scenario.refContainer (scenario.backend (ascii "4294967301")) ⟨ascii "r"⟩ =
      (some 7, 5, none)) := by
  refine ⟨?_, ?_, ?_⟩ <;> decide!

theorem getInt64FromHeader_ok {E : Type} (h : Headers) (header : Bytes) (n : Int)
    (hd : decimalInt (h.get header) = some n)
    (hlo : -(2 : Int) ^ 63 ≤ n) (hhi : n < (2 : Int) ^ 63) :
    getInt64FromHeader (E := E) h header = (n, none) := by
  unfold getInt64FromHeader
  simp only [ParseInt_of_decimal _ n hd hlo hhi]

theorem getInt64FromHeader_bad {E : Type} (h : Headers) (header : Bytes)
    (hd : ¬ isDecimalInt64 (h.get header)) :
    ∃ cause, (getInt64FromHeader (E := E) h header).2 =
      some (.badHeader header (h.get header) cause) := by
  unfold getInt64FromHeader
  obtain ⟨e, he⟩ := Option.ne_none_iff_exists'.mp (ParseInt_not_decimal _ hd)
  refine ⟨e, ?_⟩
  have : ParseInt (h.get header) 10 64 = ((ParseInt (h.get header) 10 64).1, some e) := by
    rw [← he]
  dsimp only
  rw [this]

theorem not_isDecimalInt64_nil : ¬ isDecimalInt64 [] := by
  rintro ⟨n, h, _⟩
  simp [decimalInt] at h

/-- Claim C10 as amended. When the backend fails to open the object, `Fetch`
returns that error (with a nil stream and size 0). When the object opens but
the `Content-Length` header is missing or is not the decimal notation of a
64-bit integer, `Fetch` returns a bad-header error naming the header and its
value, which is never a backend error. When the object opens and the header
is the decimal notation of the 64-bit integer `n`, `Fetch` returns the opened
stream, `n` reduced modulo `2^32` as the size, and no error. -/
theorem Fetch_contract {F E : Type} (refContainer : blob.Ref → Bytes × Bytes)
    (ObjectOpen : Bytes → Bytes → OpenResult F E) (br : blob.Ref) :
    (∀ e, (ObjectOpen (refContainer br).2 (refContainer br).1).err = some e →
      Fetch refContainer ObjectOpen br = (none, 0, some (.backend e))) ∧
    ((ObjectOpen (refContainer br).2 (refContainer br).1).err = none →
      ((ObjectOpen (refContainer br).2 (refContainer br).1).h.lookup contentLength = none ∨
        ¬ isDecimalInt64 ((ObjectOpen (refContainer br).2 (refContainer br).1).h.get contentLength)) →
      (∃ cause, (Fetch refContainer ObjectOpen br).2.2 =
        some (.badHeader contentLength
          ((ObjectOpen (refContainer br).2 (refContainer br).1).h.get contentLength) cause)) ∧
      ∀ e, (Fetch refContainer ObjectOpen br).2.2 ≠ some (.backend e)) ∧
    ((ObjectOpen (refContainer br).2 (refContainer br).1).err = none →
      ∀ n : Int,
        decimalInt ((ObjectOpen (refContainer br).2 (refContainer br).1).h.get contentLength) = some n →
        -(2 : Int) ^ 63 ≤ n → n < (2 : Int) ^ 63 →
        Fetch refContainer ObjectOpen br =
          ((ObjectOpen (refContainer br).2 (refContainer br).1).f, (n % 2 ^ 32).toNat, none)) := by
  generalize ho : ObjectOpen (refContainer br).2 (refContainer br).1 = o
  have hF : Fetch refContainer ObjectOpen br =
      (match o.err with
      | some e => (none, 0, some (.backend e))
      | none =>
        match (getInt64FromHeader (E := E) o.h contentLength).2 with
        | some e => (none, 0, some e)
        | none => (o.f, ((getInt64FromHeader (E := E) o.h contentLength).1 % 2 ^ 32).toNat, none)) := by
    unfold Fetch
    simp only [ho]
  refine ⟨?_, ?_, ?_⟩
  · intro e he
    rw [hF, he]
  · intro he hbad
    have hnd : ¬ isDecimalInt64 (o.h.get contentLength) := by
      rcases hbad with hb | hb
      · have : o.h.get contentLength = [] := by
          unfold Headers.get; rw [hb]; rfl
        rw [this]; exact not_isDecimalInt64_nil
      · exact hb
    obtain ⟨cause, hc⟩ := getInt64FromHeader_bad (E := E) o.h contentLength hnd
    have hF2 : (Fetch refContainer ObjectOpen br).2.2 =
        some (.badHeader contentLength (o.h.get contentLength) cause) := by
      rw [hF, he]
      simp only [hc]
    refine ⟨⟨cause, hF2⟩, ?_⟩
    intro e
    rw [hF2]
    simp
  · intro he n hd hlo hhi
    rw [hF, he]
    simp only [getInt64FromHeader_ok (E := E) o.h contentLength n hd hlo hhi]

/-- Witness for C10: a backend that opens stream 7 with `Content-Length: 12`. -/
theorem Fetch_contract_witness :
    Fetch scenario.refContainer (scenario.backend (ascii "12")) ⟨ascii "r"⟩ =
      (some 7, ((12 : Int) % 2 ^ 32).toNat, none) :=
  (Fetch_contract scenario.refContainer (scenario.backend (ascii "12")) ⟨ascii "r"⟩).2.2
    rfl 12 (by decide!) (by decide) (by decide)

/-! ## `client/client.go` -/

theorem findFrom_shift (fn : Bytes) :
    ∀ (res : Resources) (j : Nat), findFrom fn res j = (findFrom fn res 0).map (· + j) := by
  intro res
  induction res with
  | nil => intro j; rfl
  | cons r rs ih =>
    intro j
    unfold findFrom
    by_cases h : r.Filename = fn
    · simp [h]
    · rw [if_neg h, if_neg h, ih (j + 1), ih (0 + 1)]
      cases findFrom fn rs 0 with
      | none => rfl
      | some k => simp; omega

theorem assign_cons_zero (r : Resource) (rs : Resources) (f : Resource → Resource) :
    assign (r :: rs) 0 f = f r :: rs := by
  simp [assign]

theorem assign_cons_succ (r : Resource) (rs : Resources) (k : Nat) (f : Resource → Resource) :
    assign (r :: rs) (k + 1) f = r :: assign rs k f := by
  unfold assign
  simp only [List.getElem?_cons_succ]
  cases rs[k]? with
  | none => rfl
  | some cur => simp

theorem map_if_of_not_mem (fn : Bytes) (f : Resource → Resource) :
    ∀ (rs : Resources), (∀ r ∈ rs, r.Filename ≠ fn) →
      rs.map (fun r => if r.Filename = fn then f r else r) = rs := by
  intro rs h
  induction rs with
  | nil => rfl
  | cons r rs ih =>
    simp only [List.map_cons]
    rw [if_neg (h r (List.mem_cons_self _ _)), ih (fun x hx => h x (List.mem_cons_of_mem _ hx))]

theorem assign_find (fn : Bytes) (f : Resource → Resource) :
    ∀ (res : Resources), (res.map (·.Filename)).Nodup →
      (match findFrom fn res 0 with
        | none => res
        | some k => assign res k f) =
      res.map (fun r => if r.Filename = fn then f r else r) := by
  intro res
  induction res with
  | nil => intro _; rfl
  | cons r rs ih =>
    intro hnd
    rw [List.map_cons, List.nodup_cons] at hnd
    unfold findFrom
    by_cases h : r.Filename = fn
    · rw [if_pos h]
      simp only [List.map_cons]
      rw [if_pos h, assign_cons_zero]
      congr 1
      symm
      apply map_if_of_not_mem
      intro x hx hxfn
      apply hnd.1
      rw [h, ← hxfn]
      exact List.mem_map_of_mem _ hx
    · rw [if_neg h, findFrom_shift]
      simp only [List.map_cons]
      rw [if_neg h]
      have := ih hnd.2
      cases hk : findFrom fn rs 0 with
      | none =>
        rw [hk] at this
        simp only [Option.map_none']
        simp only at this
        rw [← this]
      | some k =>
        rw [hk] at this
        simp only [Option.map_some']
        simp only at this
        rw [assign_cons_succ, this]

theorem statStep_eq_map (c : Client) (results : Resources) (si : StatItem)
    (hnd : (results.map (·.Filename)).Nodup) :
    statStep c results si = results.map (statEffect c si) := by
  have h := assign_find (pathToFilename si.Path)
    (fun cur => { cur with Created := si.MD5 != cur.MD5, URL := c.CDNBaseURL ++ si.Path })
    results hnd
  unfold statStep findByPath
  simp only
  unfold statEffect
  rw [← h]

theorem statEffect_Filename (c : Client) (si : StatItem) (r : Resource) :
    (statEffect c si r).Filename = r.Filename := by
  unfold statEffect; split_ifs <;> rfl

theorem statEffect_Path (c : Client) (si : StatItem) (r : Resource) :
    (statEffect c si r).Path = r.Path := by
  unfold statEffect; split_ifs <;> rfl

theorem statEffect_MD5 (c : Client) (si : StatItem) (r : Resource) :
    (statEffect c si r).MD5 = r.MD5 := by
  unfold statEffect; split_ifs <;> rfl

theorem map_statEffect_Filename (c : Client) (si : StatItem) (results : Resources) :
    (results.map (statEffect c si)).map (·.Filename) = results.map (·.Filename) := by
  rw [List.map_map]
  apply List.map_congr_left
  intro r _
  exact statEffect_Filename c si r

theorem foldl_statStep_eq_map (c : Client) :
    ∀ (stat : List StatItem) (results : Resources), (results.map (·.Filename)).Nodup →
      stat.foldl (statStep c) results = results.map (statEffects c stat) := by
  intro stat
  induction stat with
  | nil =>
    intro results _
    have hid : statEffects c [] = id := rfl
    rw [hid, List.map_id]
    rfl
  | cons si rest ih =>
    intro results hnd
    rw [List.foldl_cons, statStep_eq_map c results si hnd,
      ih _ (by rw [map_statEffect_Filename]; exact hnd), List.map_map]
    rfl

theorem statEffects_keeps (c : Client) :
    ∀ (stat : List StatItem) (r : Resource),
      (statEffects c stat r).Filename = r.Filename ∧ (statEffects c stat r).Path = r.Path ∧
      (statEffects c stat r).MD5 = r.MD5 := by
  intro stat
  induction stat with
  | nil => intro r; exact ⟨rfl, rfl, rfl⟩
  | cons si rest ih =>
    intro r
    have h := ih (statEffect c si r)
    unfold statEffects at h ⊢
    rw [List.foldl_cons]
    rw [statEffect_Filename, statEffect_Path, statEffect_MD5] at h
    exact h

theorem statEffects_of_no_entry (c : Client) :
    ∀ (stat : List StatItem) (r : Resource),
      (∀ si ∈ stat, pathToFilename si.Path ≠ r.Filename) → statEffects c stat r = r := by
  intro stat
  induction stat with
  | nil => intro r _; rfl
  | cons si rest ih =>
    intro r h
    unfold statEffects
    rw [List.foldl_cons]
    have h1 : statEffect c si r = r := by
      unfold statEffect
      rw [if_neg (fun hc => h si (List.mem_cons_self _ _) hc.symm)]
    rw [h1]
    exact ih r (fun x hx => h x (List.mem_cons_of_mem _ hx))

theorem statEffects_of_entry (c : Client) :
    ∀ (stat : List StatItem) (r : Resource) (si : StatItem),
      (stat.map (fun si => pathToFilename si.Path)).Nodup → si ∈ stat →
      pathToFilename si.Path = r.Filename → statEffects c stat r = statEffect c si r := by
  intro stat
  induction stat with
  | nil => intro r si _ hm; simp at hm
  | cons s rest ih =>
    intro r si hnd hm hfn
    rw [List.map_cons, List.nodup_cons] at hnd
    unfold statEffects
    rw [List.foldl_cons]
    rcases List.mem_cons.mp hm with hs | hs
    · subst hs
      apply statEffects_of_no_entry c rest (statEffect c si r)
      intro x hx hxfn
      rw [statEffect_Filename] at hxfn
      apply hnd.1
      rw [hfn, ← hxfn]
      exact List.mem_map_of_mem (fun si => pathToFilename si.Path) hx
    · have hne : pathToFilename s.Path ≠ r.Filename := by
        intro hc
        apply hnd.1
        rw [hc, ← hfn]
        exact List.mem_map_of_mem (fun si => pathToFilename si.Path) hs
      have h1 : statEffect c s r = r := by
        unfold statEffect
        rw [if_neg (fun hc => hne hc.symm)]
      rw [h1]
      exact ih r si hnd.2 hs hfn

theorem cut_append (a b : Bytes) (h : (47 : UInt8) ∉ a) :
    cut 47 (a ++ 47 :: b) = some (a, b) := by
  induction a with
  | nil => simp [cut]
  | cons x xs ih =>
    have hx : x ≠ 47 := fun hc => h (by rw [hc]; exact List.mem_cons_self _ _)
    have hxs : (47 : UInt8) ∉ xs := fun hc => h (List.mem_cons_of_mem _ hc)
    simp [cut, hx, ih hxs]

theorem cut_none (p : Bytes) (h : (47 : UInt8) ∉ p) : cut 47 p = none := by
  induction p with
  | nil => rfl
  | cons x xs ih =>
    have hx : x ≠ 47 := fun hc => h (by rw [hc]; exact List.mem_cons_self _ _)
    have hxs : (47 : UInt8) ∉ xs := fun hc => h (List.mem_cons_of_mem _ hc)
    simp [cut, hx, ih hxs]

theorem pathToFilename_after_slash (a b : Bytes) (h : (47 : UInt8) ∉ a) :
    pathToFilename (a ++ 47 :: b) = b := by
  simp [pathToFilename, SplitN2, cut_append a b h]

theorem pathToFilename_no_slash (p : Bytes) (h : (47 : UInt8) ∉ p) :
    pathToFilename p = p := by
  simp [pathToFilename, SplitN2, cut_none p h]

/-- Claim C1 (stat-phase correlation). Let the records have pairwise distinct
filenames and `Created = true`, and let the response hold at most one entry
per correlated filename, where a path correlates to what follows its first
`/`. Then after `multiStat` every record keeps its filename, path and digest;
it has `Created = false` exactly when the response has an entry for its
filename with its digest, and then its URL is the CDN base URL followed by the
path of that entry; a record with no entry keeps `Created = true` and its URL. -/
theorem multiStat_correlation (c : Client) (results : Resources) (stat : List StatItem)
    (hnew : ∀ r ∈ results, r.Created = true)
    (hfiles : (results.map (·.Filename)).Nodup)
    (hstat : (stat.map (fun si => pathToFilename si.Path)).Nodup) :
    (∀ a b : Bytes, (47 : UInt8) ∉ a → pathToFilename (a ++ 47 :: b) = b) ∧
    (multiStat c results stat).2 = none ∧
    (multiStat c results stat).1.length = results.length ∧
    ∀ (i : Nat) (r r' : Resource), results[i]? = some r →
      (multiStat c results stat).1[i]? = some r' →
      r'.Filename = r.Filename ∧ r'.Path = r.Path ∧ r'.MD5 = r.MD5 ∧
      (r'.Created = false ↔
        ∃ si ∈ stat, pathToFilename si.Path = r.Filename ∧ si.MD5 = r.MD5) ∧
      (∀ si ∈ stat, pathToFilename si.Path = r.Filename → si.MD5 = r.MD5 →
        r'.URL = c.CDNBaseURL ++ si.Path) ∧
      ((∀ si ∈ stat, pathToFilename si.Path ≠ r.Filename) →
        r'.Created = true ∧ r'.URL = r.URL) := by
  have hout : (multiStat c results stat).1 = results.map (statEffects c stat) := by
    unfold multiStat
    exact foldl_statStep_eq_map c stat results hfiles
  refine ⟨pathToFilename_after_slash, rfl, by rw [hout, List.length_map], ?_⟩
  intro i r r' hr hr'
  rw [hout, List.getElem?_map, hr] at hr'
  simp only [Option.map_some', Option.some.injEq] at hr'
  subst hr'
  have hcreated : r.Created = true := hnew r (List.getElem?_mem hr)
  obtain ⟨k1, k2, k3⟩ := statEffects_keeps c stat r
  refine ⟨k1, k2, k3, ?_, ?_, ?_⟩
  · constructor
    · intro hfalse
      by_contra hno
      push_neg at hno
      by_cases hex : ∃ si ∈ stat, pathToFilename si.Path = r.Filename
      · obtain ⟨si, hsi, hfn⟩ := hex
        rw [statEffects_of_entry c stat r si hstat hsi hfn] at hfalse
        unfold statEffect at hfalse
        rw [if_pos hfn.symm] at hfalse
        simp only [bne_eq_false_iff_eq] at hfalse
        exact hno si hsi hfn hfalse
      · push_neg at hex
        rw [statEffects_of_no_entry c stat r hex, hcreated] at hfalse
        exact Bool.noConfusion hfalse
    · rintro ⟨si, hsi, hfn, hmd5⟩
      rw [statEffects_of_entry c stat r si hstat hsi hfn]
      unfold statEffect
      rw [if_pos hfn.symm]
      simp [hmd5]
  · intro si hsi hfn _
    rw [statEffects_of_entry c stat r si hstat hsi hfn]
    unfold statEffect
    rw [if_pos hfn.symm]
  · intro hno
    rw [statEffects_of_no_entry c stat r hno]
    exact ⟨hcreated, rfl⟩

/-- Witness for C1: scenario A of the specification, record `a.txt`. -/
theorem multiStat_correlation_witness :
    (scenario.aTxtKnown.Created = false ↔
      ∃ si ∈ scenario.statA,
        pathToFilename si.Path = scenario.aTxt.Filename ∧ si.MD5 = scenario.aTxt.MD5) :=
  ((multiStat_correlation scenario.cdn [scenario.aTxt, scenario.bTxt] scenario.statA
    (by decide) (by decide) (by decide)).2.2.2 0 scenario.aTxt scenario.aTxtKnown
    (by decide) (by decide)).2.2.2.1

theorem collectUploads_foldl (files : Resources) :
    ∀ acc : List Bytes,
      files.foldl (fun toUpload res => if res.Created then toUpload ++ [res.Path] else toUpload) acc =
        acc ++ (files.filter (·.Created)).map (·.Path) := by
  induction files with
  | nil => intro acc; simp
  | cons r rs ih =>
    intro acc
    rw [List.foldl_cons, ih]
    cases hr : r.Created <;> simp [List.filter_cons, hr]

theorem collectUploads_eq (files : Resources) :
    collectUploads files = (files.filter (·.Created)).map (·.Path) := by
  unfold collectUploads
  rw [collectUploads_foldl]
  rfl

/-- Claim C2 (upload partition). For every list of records returned by the stat
phase without error, every upload that `MultiUploader` submits is the list of
paths of the records with `Created = true`, in their order; there is exactly
one such upload when some record has `Created = true`; and when none has,
nothing is uploaded and the records are returned unchanged with a nil error. -/
theorem MultiUploader_partition (c : Client) (files : Resources)
    (server : List Bytes → UploadReply) :
    (∀ submitted ∈ (MultiUploader c (files, none) server).uploads,
      submitted = (files.filter (·.Created)).map (·.Path)) ∧
    ((∃ r ∈ files, r.Created = true) →
      (MultiUploader c (files, none) server).uploads =
        [(files.filter (·.Created)).map (·.Path)]) ∧
    ((∀ r ∈ files, r.Created = false) →
      (MultiUploader c (files, none) server).uploads = [] ∧
      (MultiUploader c (files, none) server).files = some files ∧
      (MultiUploader c (files, none) server).err = none) := by
  have hM : MultiUploader c (files, none) server =
      (if (collectUploads files).length = 0 then
        { files := some files, err := none, uploads := [] }
      else
        { files := some (multiUpload c files (collectUploads files)
            (server (collectUploads files))).1,
          err := (multiUpload c files (collectUploads files) (server (collectUploads files))).2,
          uploads := [collectUploads files] }) := rfl
  rw [hM, collectUploads_eq]
  refine ⟨?_, ?_, ?_⟩
  · intro submitted hs
    split_ifs at hs with h0
    · simp at hs
    · simpa using hs
  · rintro ⟨r, hr, hc⟩
    have hne : ¬ (((files.filter (·.Created)).map (·.Path)).length = 0) := by
      rw [List.length_map]
      intro h0
      have hmem : r ∈ files.filter (·.Created) := List.mem_filter.mpr ⟨hr, hc⟩
      rw [List.length_eq_zero.mp h0] at hmem
      simp at hmem
    rw [if_neg hne]
  · intro hall
    have h0 : ((files.filter (·.Created)).map (·.Path)).length = 0 := by
      rw [List.length_map, List.length_eq_zero, List.filter_eq_nil_iff]
      intro r hr
      rw [hall r hr]
      simp
    rw [if_pos h0]
    exact ⟨rfl, rfl, rfl⟩

/-- Witness for C2: scenario A, only `b.txt` is uploaded. -/
theorem MultiUploader_partition_witness :
    (MultiUploader scenario.cdn ([scenario.aTxtKnown, scenario.bTxt], none)
      (fun _ => scenario.replyTwo)).uploads =
      [([scenario.aTxtKnown, scenario.bTxt].filter (·.Created)).map (·.Path)] :=
  (MultiUploader_partition scenario.cdn [scenario.aTxtKnown, scenario.bTxt]
    (fun _ => scenario.replyTwo)).2.1 ⟨scenario.bTxt, by decide, rfl⟩

/-- Counterexample to claim C3 as stated: two files are submitted and the reply
has status 201 and two items, the second naming a file nobody sent.
`multiUpload` returns an error, yet the URL of `a.txt` has been set. -/
theorem multiUpload_partial_update :
    multiUpload scenario.cdn [scenario.aTxt, scenario.bTxt]
      [scenario.aTxt.Path, scenario.bTxt.Path] scenario.replyUnknown =
    ([{ scenario.aTxt with URL := ascii "http://cdn/c0/a.txt" }, scenario.bTxt],
     some (.uploadError (ascii "c1/zzz.txt"))) ∧
    ({ scenario.aTxt with URL := ascii "http://cdn/c0/a.txt" } : Resource).URL ≠
      scenario.aTxt.URL := by
  decide

/-- Claim C3 as amended. If building the request or the round trip fails, the
status is not 201, or the number of received items differs from the number of
files submitted, then `multiUpload` returns an error and every record is as it
was before the call. A status other than 201 gives the status error, and with
status 201 a count mismatch gives the count-mismatch error naming both counts. -/
theorem multiUpload_all_or_nothing (c : Client) (results : Resources) (toUpload : List Bytes)
    (reply : UploadReply) :
    ((reply.buildErr ≠ none ∨ reply.doErr ≠ none ∨ reply.StatusCode ≠ 201 ∨
        reply.Received.length ≠ toUpload.length) →
      (multiUpload c results toUpload reply).2 ≠ none ∧
      (multiUpload c results toUpload reply).1 = results) ∧
    (reply.buildErr = none → reply.doErr = none → reply.StatusCode ≠ 201 →
      multiUpload c results toUpload reply =
        (results, some (.unexpectedStatusCode reply.StatusCode))) ∧
    (reply.buildErr = none → reply.doErr = none → reply.StatusCode = 201 →
      reply.Received.length ≠ toUpload.length →
      multiUpload c results toUpload reply =
        (results, some (.expectedReceived toUpload.length reply.Received.length))) := by
  unfold multiUpload
  refine ⟨?_, ?_, ?_⟩
  · intro h
    cases hb : reply.buildErr with
    | some e => simp
    | none =>
      cases hd : reply.doErr with
      | some e => simp
      | none =>
        simp only
        by_cases hs : reply.StatusCode ≠ 201
        · rw [if_pos hs]; simp
        · rw [if_neg hs]
          by_cases hl : reply.Received.length ≠ toUpload.length
          · rw [if_pos hl]; simp
          · rw [hb, hd] at h
            simp only [ne_eq, not_true_eq_false, false_or] at h
            rcases h with h | h
            · exact absurd h hs
            · exact absurd h hl
  · intro hb hd hs
    rw [hb, hd]
    simp only
    rw [if_pos hs]
  · intro hb hd hs hl
    rw [hb, hd]
    simp only
    rw [if_neg (by simp [hs]), if_pos hl]

/-- Witness for C3: three files submitted, two items received. -/
theorem multiUpload_all_or_nothing_witness :
    multiUpload scenario.cdn [scenario.aTxt, scenario.bTxt, scenario.cTxt]
      [scenario.aTxt.Path, scenario.bTxt.Path, scenario.cTxt.Path] scenario.replyTwo =
    ([scenario.aTxt, scenario.bTxt, scenario.cTxt],
      some (.expectedReceived
        [scenario.aTxt.Path, scenario.bTxt.Path, scenario.cTxt.Path].length
        scenario.replyTwo.Received.length)) :=
  (multiUpload_all_or_nothing scenario.cdn [scenario.aTxt, scenario.bTxt, scenario.cTxt]
    [scenario.aTxt.Path, scenario.bTxt.Path, scenario.cTxt.Path] scenario.replyTwo).2.2
    rfl rfl rfl (by decide)

end Blobserver
